import Mathlib

set_option linter.unusedVariables false

/-!
Shallow embedding of `src/store.ts`.

The source is a `Store<T>` class holding one mutable domain `value : T` and a
registry `listeners : Listener[]`, with two hooks:

* `useRead(selector)`: `getter = useCallback(() => ({value: selector(this.value)}), [selector])`,
  `[state, setState] = useState(getter)`,
  `useEffect(() => this.addListener(() => setState(getter)), [getter])`,
  returns `state.value`.
* `useWrite(selector)`: picks `selectedMethod = selector(this.value)` and returns a
  wrapper `(...args) => { const result = selectedMethod.call(this.value, ...args);
  this.emitChange(); return result }`.
* `emitChange()` iterates the registry and invokes each listener;
  `addListener` pushes and returns a cleanup; `removeListener` filters by
  reference identity.

The embedding models listener references as allocated `Nat` ids, the per-render
container object `{ value: R }` as an allocation tag (`tag`) plus the cached
value (`cached`): object identity is tag equality, and the host state cell
(React `useState`) bails out of a re-render exactly when the replacement
container is identical (same tag) to the current one, which is React's
`Object.is` bailout. A `World` is the Store plus the hook state of every
mounted read subscription. Mutating methods of `T` are embedded as functions
`T → α → T × β` (receiver in, receiver out plus return value); methods or
selectors that throw are embedded with `Except`.
-/

/-- `addListener` pushes the listener onto the registry array. -/
def addListener (ls : List Nat) (l : Nat) : List Nat := ls ++ [l]

/-- `removeListener` filters the registry, dropping entries identical (by
reference) to the given listener. -/
def removeListener (ls : List Nat) (l : Nat) : List Nat :=
  ls.filter (fun x => x != l)

/-- The hook state of one mounted `useRead` subscription: its registered
listener's identity, the identity key of the selector (deps of `useCallback`,
hence of the memoized getter), the selector itself, the current state-cell
container (`tag` = container object identity, `cached` = `container.value`),
and instrumentation counters: committed renders and selector invocations. -/
structure ReadSub (T R : Type) where
  listenerId : Nat
  selKey : Nat
  selector : T → R
  tag : Nat
  cached : R
  renders : Nat
  selCalls : Nat

/-- The Store (`value`, `listeners`) together with the host framework state:
the mounted read subscriptions in registration order, render counters of
components that never call `useRead`, and fresh-allocation counters for
container tags and listener ids. -/
structure World (T R : Type) where
  value : T
  listeners : List Nat
  subs : List (ReadSub T R)
  others : List Nat
  nextTag : Nat
  nextId : Nat

/-- A freshly constructed Store with domain value `v`: empty registry, no
subscriptions. -/
def initWorld (R : Type) {T : Type} (v : T) : World T R :=
  { value := v, listeners := [], subs := [], others := [], nextTag := 0,
    nextId := 0 }

/-- One listener invocation `() => setState(getter)` as it acts on the
subscription that registered it: the getter runs the selector and wraps the
result in a fresh container (tag `n`); `setState` replaces the cell and
re-renders unless the new container is identical to the current one. -/
def setStateStep (v : T) (n : Nat) (s : ReadSub T R) : ReadSub T R :=
  let s1 := { s with selCalls := s.selCalls + 1 }
  if n = s.tag then s1
  else { s1 with tag := n, cached := s.selector v, renders := s.renders + 1 }

/-- Deliver a listener invocation to the (unique) subscription holding that
listener: JS closures are distinct references, so a listener id matches the
first (and only) subscription carrying it. `none` when no subscription holds
the id. -/
def notifyFirst (v : T) (n : Nat) (lid : Nat) :
    List (ReadSub T R) → Option (List (ReadSub T R))
  | [] => none
  | s :: rest =>
    if s.listenerId = lid then some (setStateStep v n s :: rest)
    else (notifyFirst v n lid rest).map (s :: ·)

/-- Run one registered listener against the subscription state, threading the
container-tag allocator (a fresh container is allocated whenever the getter
runs). -/
def runListener (v : T) (lid : Nat) (p : List (ReadSub T R) × Nat) :
    List (ReadSub T R) × Nat :=
  match notifyFirst v p.2 lid p.1 with
  | some subs2 => (subs2, p.2 + 1)
  | none => p

/-- The loop body of `emitChange`: `for (const listener of this.listeners)
listener()`, invoking each registered listener in registry order. The domain
value and the registry are not modified by any listener, so only the
subscription state and the tag allocator are threaded. -/
def emitCore (v : T) (ls : List Nat) (p : List (ReadSub T R) × Nat) :
    List (ReadSub T R) × Nat :=
  ls.foldl (fun q lid => runListener v lid q) p

/-- `emitChange()`: synchronously invoke every currently registered listener,
in registry order, in one pass. -/
def emitChange (w : World T R) : World T R :=
  let p := emitCore w.value w.listeners (w.subs, w.nextTag)
  { w with subs := p.1, nextTag := p.2 }

/-- The hook call `useWrite(selector)` itself: evaluates
`selector(this.value)` to pick the method and returns it (as the wrapper's
captured method). It touches no Store state and registers no listener. -/
def useWriteHook (w : World T R) (sel : T → M) : World T R × M :=
  (w, sel w.value)

/-- Invoking the wrapper returned by `useWrite`:
`const result = selectedMethod.call(this.value, ...args); this.emitChange();
return result`. The method `m` receives the current shared domain value as its
receiver and yields the mutated value plus its return value; then every
listener is notified; then the captured result is returned. -/
def invokeWrite (w : World T R) (m : T → α → T × β) (args : α) :
    World T R × β :=
  let r := m w.value args
  (emitChange { w with value := r.1 }, r.2)

/-- The subscription record created on a subscription's first render: the
lazy `useState` initializer runs the getter once (one selector call, one
fresh container), and the component commits its first render. -/
def mkSub (v : T) (tag : Nat) (lid : Nat) (selKey : Nat) (sel : T → R) :
    ReadSub T R :=
  { listenerId := lid, selKey := selKey, selector := sel, tag := tag,
    cached := sel v, renders := 1, selCalls := 1 }

/-- First render of a component calling `useRead`: the state cell is
initialized lazily from the getter, and the mount effect registers
`() => setState(getter)` via `addListener`. -/
def mountRead (w : World T R) (selKey : Nat) (sel : T → R) : World T R :=
  { w with
    subs := w.subs ++ [mkSub w.value w.nextTag w.nextId selKey sel],
    listeners := addListener w.listeners w.nextId,
    nextTag := w.nextTag + 1,
    nextId := w.nextId + 1 }

/-- Replace (only) the first subscription holding the given listener id. -/
def updateFirst (lid : Nat) (f : ReadSub T R → ReadSub T R) :
    List (ReadSub T R) → List (ReadSub T R)
  | [] => []
  | s :: rest =>
    if s.listenerId = lid then f s :: rest
    else s :: updateFirst lid f rest

/-- A re-render of a component whose `useRead` subscription is `lid`, with the
selector it passes this time carrying identity `selKey`. If the selector
identity is unchanged, `useCallback` returns the memoized getter, `useState`
returns the existing cell without running its initializer, and the effect's
deps are unchanged: the component just renders again. If the selector
identity changed, the new getter is created but not invoked (`useState`
ignores its initializer after the first render), and the effect re-runs: the
old listener's cleanup removes it and a fresh listener closing over the new
getter is pushed; the cached container is left as it was. -/
def rerenderRead (w : World T R) (lid : Nat) (selKey : Nat) (sel : T → R) :
    World T R :=
  match w.subs.find? (fun s => s.listenerId == lid) with
  | none => w
  | some s =>
    if s.selKey = selKey then
      { w with
        subs := updateFirst lid
          (fun s0 => { s0 with renders := s0.renders + 1 }) w.subs }
    else
      let s2 : ReadSub T R :=
        { s with selKey := selKey, selector := sel, listenerId := w.nextId,
                 renders := s.renders + 1 }
      { w with
        subs := w.subs.filter (fun s0 => s0.listenerId != lid) ++ [s2],
        listeners := addListener (removeListener w.listeners lid) w.nextId,
        nextId := w.nextId + 1 }

/-- Unmount of a subscribed component: the effect cleanup returned by
`addListener` runs, removing that listener from the registry, and the
component's hook state is discarded. -/
def unmount (w : World T R) (lid : Nat) : World T R :=
  { w with
    listeners := removeListener w.listeners lid,
    subs := w.subs.filter (fun s => s.listenerId != lid) }

/-- Unmount every currently mounted read subscription, in order. -/
def unmountAll (w : World T R) : World T R :=
  (w.subs.map (·.listenerId)).foldl unmount w

/-- The value `useRead` returns for subscription `lid` on the current
evaluation pass: `state.value`, i.e. the cached container's payload. -/
def readValue (w : World T R) (lid : Nat) : Option R :=
  (w.subs.find? (fun s => s.listenerId == lid)).map (·.cached)

/-- Well-formedness maintained by the host framework: the registry lists
exactly the mounted subscriptions' listeners in order, listener references
are distinct, and every allocated tag / id is below its allocator. -/
def WF (w : World T R) : Prop :=
  w.listeners = w.subs.map (·.listenerId) ∧
  (w.subs.map (·.listenerId)).Nodup ∧
  (∀ s ∈ w.subs, s.tag < w.nextTag) ∧
  (∀ s ∈ w.subs, s.listenerId < w.nextId)

/-- The effect of one full `emitChange` pass on the subscription list:
each subscription, in order, gets one getter evaluation against `v` and one
fresh container. -/
def refreshAll (v : T) : Nat → List (ReadSub T R) → List (ReadSub T R)
  | _, [] => []
  | n, s :: rest => setStateStep v n s :: refreshAll v (n + 1) rest

/-- First render of a `useRead` whose selector may throw: the getter runs the
selector inside the lazy `useState` initializer; an exception escapes the
hook unchanged (the Store installs no handler), and in that case no state is
installed and no listener is attached. -/
def mountReadE (w : World T R) (selKey : Nat) (sel : T → Except E R) :
    Except E (World T R) :=
  match sel w.value with
  | .error e => .error e
  | .ok r =>
    .ok { w with
      subs := w.subs ++
        [{ listenerId := w.nextId, selKey := selKey,
           selector := fun _ => r, tag := w.nextTag, cached := r,
           renders := 1, selCalls := 1 }],
      listeners := addListener w.listeners w.nextId,
      nextTag := w.nextTag + 1,
      nextId := w.nextId + 1 }

/-- Invoking a `useWrite` wrapper whose selected method may throw:
`selectedMethod.call(this.value, ...args)` runs first; if it throws, the
exception propagates out of the wrapper before `this.emitChange()` is
reached, so no notification happens and the Store is left as it was. -/
def invokeWriteE (w : World T R) (m : T → α → Except E (T × β)) (args : α) :
    World T R × Except E β :=
  match m w.value args with
  | .error e => (w, .error e)
  | .ok r => (emitChange { w with value := r.1 }, .ok r.2)

/-! ### Basic lemmas about single-listener delivery -/

lemma setStateStep_listenerId (v : T) (n : Nat) (s : ReadSub T R) :
    (setStateStep v n s).listenerId = s.listenerId := by
  unfold setStateStep
  split <;> rfl

lemma setStateStep_of_lt (v : T) (n : Nat) (s : ReadSub T R) (h : s.tag < n) :
    setStateStep v n s =
      { s with tag := n, cached := s.selector v, renders := s.renders + 1,
               selCalls := s.selCalls + 1 } := by
  have hne : ¬ (n = s.tag) := by omega
  simp [setStateStep, hne]

lemma notifyFirst_cons_ne (v : T) (n lid : Nat) (s : ReadSub T R)
    (rest : List (ReadSub T R)) (h : s.listenerId ≠ lid) :
    notifyFirst v n lid (s :: rest) =
      (notifyFirst v n lid rest).map (s :: ·) := by
  simp [notifyFirst, h]

lemma notifyFirst_cons_eq (v : T) (n lid : Nat) (s : ReadSub T R)
    (rest : List (ReadSub T R)) (h : s.listenerId = lid) :
    notifyFirst v n lid (s :: rest) = some (setStateStep v n s :: rest) := by
  simp [notifyFirst, h]

lemma runListener_cons_ne (v : T) (lid : Nat) (s : ReadSub T R)
    (rest : List (ReadSub T R)) (n : Nat) (h : s.listenerId ≠ lid) :
    runListener v lid (s :: rest, n) =
      (s :: (runListener v lid (rest, n)).1,
        (runListener v lid (rest, n)).2) := by
  unfold runListener
  simp only []
  rw [notifyFirst_cons_ne v n lid s rest h]
  cases h2 : notifyFirst v n lid rest <;> simp [h2]

lemma emitCore_nil (v : T) (p : List (ReadSub T R) × Nat) :
    emitCore v [] p = p := rfl

lemma emitCore_cons (v : T) (lid : Nat) (ls : List Nat)
    (p : List (ReadSub T R) × Nat) :
    emitCore v (lid :: ls) p = emitCore v ls (runListener v lid p) := rfl

lemma emitCore_cons_skip (v : T) (ls : List Nat) (s : ReadSub T R)
    (hs : s.listenerId ∉ ls) :
    ∀ (rest : List (ReadSub T R)) (n : Nat),
      emitCore v ls (s :: rest, n) =
        (s :: (emitCore v ls (rest, n)).1, (emitCore v ls (rest, n)).2) := by
  induction ls with
  | nil => intro rest n; rfl
  | cons lid ls ih =>
    intro rest n
    have h1 : s.listenerId ≠ lid := fun h => hs (by simp [h])
    rw [emitCore_cons, emitCore_cons, runListener_cons_ne v lid s rest n h1]
    have := ih (fun h => hs (List.mem_cons_of_mem _ h))
      (runListener v lid (rest, n)).1 (runListener v lid (rest, n)).2
    simpa using this

/-! ### One `emitChange` pass refreshes each subscription exactly once -/

lemma refreshAll_length (v : T) (subs : List (ReadSub T R)) :
    ∀ n, (refreshAll v n subs).length = subs.length := by
  induction subs with
  | nil => intro n; rfl
  | cons s rest ih => intro n; simp [refreshAll, ih]

lemma emitCore_map_ids (v : T) (subs : List (ReadSub T R)) :
    ∀ n, (subs.map (·.listenerId)).Nodup →
      emitCore v (subs.map (·.listenerId)) (subs, n) =
        (refreshAll v n subs, n + subs.length) := by
  induction subs with
  | nil => intro n _; simp [emitCore, refreshAll]
  | cons s rest ih =>
    intro n hnd
    rw [List.map_cons, emitCore_cons]
    have hnd2 : s.listenerId ∉ rest.map (·.listenerId) ∧
        (rest.map (·.listenerId)).Nodup := by
      constructor
      · exact (List.nodup_cons.mp (by simpa using hnd)).1
      · exact (List.nodup_cons.mp (by simpa using hnd)).2
    have h1 : runListener v s.listenerId (s :: rest, n) =
        (setStateStep v n s :: rest, n + 1) := by
      unfold runListener
      simp only []
      rw [notifyFirst_cons_eq v n s.listenerId s rest rfl]
    rw [h1]
    have hss : (setStateStep v n s).listenerId ∉ rest.map (·.listenerId) := by
      rw [setStateStep_listenerId]; exact hnd2.1
    rw [emitCore_cons_skip v _ _ hss rest (n + 1), ih (n + 1) hnd2.2]
    simp [refreshAll]
    omega

lemma refreshAll_get (v : T) (subs : List (ReadSub T R)) :
    ∀ (n i : Nat) (h : i < subs.length)
      (h2 : i < (refreshAll v n subs).length),
      (refreshAll v n subs).get ⟨i, h2⟩ =
        setStateStep v (n + i) (subs.get ⟨i, h⟩) := by
  induction subs with
  | nil => intro n i h h2; exact absurd h (by simp)
  | cons s rest ih =>
    intro n i h h2
    cases i with
    | zero => simp [refreshAll]
    | succ j =>
      have hj : j < rest.length := by simpa using h
      have hj2 : j < (refreshAll v (n + 1) rest).length := by
        rw [refreshAll_length]; exact hj
      have := ih (n + 1) j hj hj2
      simp only [refreshAll, List.get_cons_succ]
      rw [this]
      congr 1
      omega

lemma emitChange_eq (w : World T R) (hwf : WF w) :
    emitChange w =
      { w with subs := refreshAll w.value w.nextTag w.subs,
               nextTag := w.nextTag + w.subs.length } := by
  obtain ⟨h1, h2, h3, h4⟩ := hwf
  unfold emitChange
  rw [h1, emitCore_map_ids w.value w.subs w.nextTag h2]

lemma WF_value_update (w : World T R) (hwf : WF w) (v : T) :
    WF { w with value := v } := hwf

/-! ### Registry helper lemmas -/

lemma removeListener_not_mem_self (ls : List Nat) (l : Nat) :
    l ∉ removeListener ls l := by
  intro h
  have := List.of_mem_filter h
  simp at this

lemma removeListener_of_not_mem (ls : List Nat) (l : Nat) (h : l ∉ ls) :
    removeListener ls l = ls := by
  apply List.filter_eq_self.mpr
  intro x hx
  have : x ≠ l := fun heq => h (heq ▸ hx)
  simpa using this

lemma removeListener_cons (ls : List Nat) (a l : Nat) :
    removeListener (a :: ls) l =
      if a = l then removeListener ls l else a :: removeListener ls l := by
  by_cases h : a = l
  · have hb : (a != l) = false := by simp [h]
    simp [removeListener, List.filter_cons, hb, h]
  · have hb : (a != l) = true := by simp [h]
    simp [removeListener, List.filter_cons, hb, h]

lemma removeListener_length_of_nodup (ls : List Nat) (l : Nat)
    (hnd : ls.Nodup) (hm : l ∈ ls) :
    (removeListener ls l).length + 1 = ls.length := by
  induction ls with
  | nil => simp at hm
  | cons a ls ih =>
    by_cases h : a = l
    · have hnotin : l ∉ ls := by
        rw [← h]; exact (List.nodup_cons.mp hnd).1
      rw [removeListener_cons, if_pos h, removeListener_of_not_mem ls l hnotin]
      simp
    · have hmem : l ∈ ls := by
        rcases List.mem_cons.mp hm with h2 | h2
        · exact absurd h2.symm h
        · exact h2
      rw [removeListener_cons, if_neg h]
      simpa using ih (List.nodup_cons.mp hnd).2 hmem

lemma mem_removeListener_of_ne (ls : List Nat) (l x : Nat) (hx : x ∈ ls)
    (hne : x ≠ l) : x ∈ removeListener ls l := by
  apply List.mem_filter.mpr
  exact ⟨hx, by simpa using hne⟩

lemma map_ids_filter (lid : Nat) (subs : List (ReadSub T R)) :
    (subs.filter (fun s => s.listenerId != lid)).map (·.listenerId) =
      removeListener (subs.map (·.listenerId)) lid := by
  induction subs with
  | nil => rfl
  | cons s rest ih =>
    by_cases h : s.listenerId = lid
    · have hb : (s.listenerId != lid) = false := by simp [h]
      rw [List.map_cons, removeListener_cons, if_pos h, List.filter_cons]
      simpa [hb] using ih
    · have hb : (s.listenerId != lid) = true := by simp [h]
      rw [List.map_cons, removeListener_cons, if_neg h, List.filter_cons]
      simpa [hb] using ih

lemma refreshAll_get_forced (v : T) (subs : List (ReadSub T R)) (n i : Nat)
    (h : i < subs.length) (h2 : i < (refreshAll v n subs).length)
    (htag : (subs.get ⟨i, h⟩).tag < n) :
    (refreshAll v n subs).get ⟨i, h2⟩ =
      { subs.get ⟨i, h⟩ with
        tag := n + i, cached := (subs.get ⟨i, h⟩).selector v,
        renders := (subs.get ⟨i, h⟩).renders + 1,
        selCalls := (subs.get ⟨i, h⟩).selCalls + 1 } := by
  rw [refreshAll_get v subs n i h h2]
  exact setStateStep_of_lt v (n + i) _
    (Nat.lt_of_lt_of_le htag (Nat.le_add_right n i))

/-! ### Well-formedness is established at construction and preserved -/

lemma WF_initWorld (R : Type) {T : Type} (v : T) : WF (initWorld R v) := by
  refine ⟨rfl, by simp [initWorld], ?_, ?_⟩ <;>
    intro s hs <;> simp [initWorld] at hs

lemma WF_unmount (w : World T R) (hwf : WF w) (lid : Nat) :
    WF (unmount w lid) := by
  obtain ⟨h1, h2, h3, h4⟩ := hwf
  refine ⟨?_, ?_, ?_, ?_⟩
  · show removeListener w.listeners lid = _
    rw [h1, ← map_ids_filter]
    rfl
  · show ((w.subs.filter fun s => s.listenerId != lid).map (·.listenerId)).Nodup
    rw [map_ids_filter]
    exact List.Nodup.filter _ h2
  · intro s hs
    exact h3 s (List.mem_of_mem_filter hs)
  · intro s hs
    exact h4 s (List.mem_of_mem_filter hs)

lemma WF_mountRead (w : World T R) (hwf : WF w) (selKey : Nat) (sel : T → R) :
    WF (mountRead w selKey sel) := by
  obtain ⟨h1, h2, h3, h4⟩ := hwf
  refine ⟨?_, ?_, ?_, ?_⟩
  · show addListener w.listeners w.nextId = _
    rw [h1]
    simp [addListener, mountRead, mkSub]
  · show ((w.subs ++ [mkSub w.value w.nextTag w.nextId selKey sel]).map
      (·.listenerId)).Nodup
    rw [List.map_append, List.nodup_append]
    refine ⟨h2, by simp, ?_⟩
    intro x hx hx2
    rcases List.mem_map.mp hx with ⟨s, hs, hxs⟩
    have hlt := h4 s hs
    simp [mkSub] at hx2
    omega
  · intro s hs
    rcases (by simpa [mountRead] using hs :
        s ∈ w.subs ∨ s = mkSub w.value w.nextTag w.nextId selKey sel) with h | h
    · exact Nat.lt_trans (h3 s h) (Nat.lt_succ_self _)
    · subst h
      simp [mkSub, mountRead]
  · intro s hs
    rcases (by simpa [mountRead] using hs :
        s ∈ w.subs ∨ s = mkSub w.value w.nextTag w.nextId selKey sel) with h | h
    · exact Nat.lt_trans (h4 s h) (Nat.lt_succ_self _)
    · subst h
      simp [mkSub, mountRead]

lemma foldl_unmount_spec {T R : Type} (ids : List Nat) :
    ∀ (w : World T R), WF w → w.subs.map (·.listenerId) = ids →
      (ids.foldl unmount w).subs = [] ∧ (ids.foldl unmount w).listeners = [] := by
  induction ids with
  | nil =>
    intro w hwf hmap
    have hsubs : w.subs = [] := List.map_eq_nil_iff.mp hmap
    constructor
    · simpa using hsubs
    · rw [List.foldl_nil, hwf.1, hmap]
  | cons lid ids ih =>
    intro w hwf hmap
    obtain ⟨h1, h2, h3, h4⟩ := hwf
    cases hsub : w.subs with
    | nil => rw [hsub] at hmap; simp at hmap
    | cons s rest =>
      rw [hsub, List.map_cons] at hmap
      have hsl : s.listenerId = lid := (List.cons.injEq _ _ _ _ ▸ hmap).1
      have hrest : rest.map (·.listenerId) = ids :=
        (List.cons.injEq _ _ _ _ ▸ hmap).2
      have hnd2 : (s.listenerId :: rest.map (·.listenerId)).Nodup := by
        rw [← List.map_cons, ← hsub]; exact h2
      have hnotin : ∀ x ∈ rest, (x.listenerId != lid) = true := by
        intro x hx
        have hhead := (List.nodup_cons.mp hnd2).1
        simp only [bne_iff_ne, ne_eq]
        intro heq
        exact hhead (hsl ▸ heq ▸ List.mem_map.mpr ⟨x, hx, rfl⟩)
      have hb : (s.listenerId != lid) = false := by simp [hsl]
      have hfilter : (unmount w lid).subs = rest := by
        show w.subs.filter _ = rest
        rw [hsub, List.filter_cons]
        simp only [hb, cond_false]
        exact List.filter_eq_self.mpr hnotin
      have hwf2 := WF_unmount w ⟨h1, h2, h3, h4⟩ lid
      have hmap2 : (unmount w lid).subs.map (·.listenerId) = ids := by
        rw [hfilter, hrest]
      rw [List.foldl_cons]
      exact ih (unmount w lid) hwf2 hmap2

lemma notifyFirst_at_index (v : T) (n : Nat) :
    ∀ (subs : List (ReadSub T R)),
      (subs.map (·.listenerId)).Nodup →
      ∀ (i : Nat) (h : i < subs.length),
        notifyFirst v n ((subs.get ⟨i, h⟩).listenerId) subs =
          some (subs.set i (setStateStep v n (subs.get ⟨i, h⟩))) := by
  intro subs
  induction subs with
  | nil => intro _ i h; simp at h
  | cons s rest ih =>
    intro hnd i h
    cases i with
    | zero =>
      have hget0 : ((s :: rest).get ⟨0, h⟩) = s := rfl
      rw [hget0, notifyFirst_cons_eq v n s.listenerId s rest rfl]
      rfl
    | succ j =>
      have hj : j < rest.length := by simpa using h
      have hget : ((s :: rest).get ⟨j + 1, h⟩) = rest.get ⟨j, hj⟩ := rfl
      have hnd2 : (s.listenerId :: rest.map (·.listenerId)).Nodup := by
        simpa using hnd
      have hne : s.listenerId ≠ (rest.get ⟨j, hj⟩).listenerId := by
        intro heq
        exact (List.nodup_cons.mp hnd2).1
          (heq ▸ List.mem_map.mpr ⟨_, List.get_mem rest _ _, rfl⟩)
      rw [hget, notifyFirst_cons_ne v n _ s rest hne,
        ih (List.nodup_cons.mp hnd2).2 j hj]
      rfl

lemma map_updateFirst_eq (lid : Nat) (f : ReadSub T R → ReadSub T R)
    (g : ReadSub T R → Nat) (hg : ∀ s, g (f s) = g s) :
    ∀ subs : List (ReadSub T R), (updateFirst lid f subs).map g = subs.map g := by
  intro subs
  induction subs with
  | nil => rfl
  | cons s rest ih =>
    by_cases h : s.listenerId = lid
    · simp [updateFirst, h, hg]
    · simp [updateFirst, h, ih]

lemma find_filter_sum (lid : Nat) (g : ReadSub T R → Nat) :
    ∀ (subs : List (ReadSub T R)) (s : ReadSub T R),
      (subs.map (·.listenerId)).Nodup →
      subs.find? (fun s0 => s0.listenerId == lid) = some s →
      ((subs.filter (fun s0 => s0.listenerId != lid)).map g).sum + g s =
        (subs.map g).sum := by
  intro subs
  induction subs with
  | nil => intro s _ hf; simp at hf
  | cons a rest ih =>
    intro s hnd hf
    have hnd2 : (a.listenerId :: rest.map (·.listenerId)).Nodup := by
      simpa using hnd
    by_cases h : a.listenerId = lid
    · have hp : (a.listenerId == lid) = true := by simp [h]
      have hs : a = s := by
        simp [List.find?_cons, hp] at hf
        exact hf
      subst hs
      have hb : (a.listenerId != lid) = false := by simp [h]
      have hnotin : ∀ x ∈ rest, (x.listenerId != lid) = true := by
        intro x hx
        simp only [bne_iff_ne, ne_eq]
        intro heq
        exact (List.nodup_cons.mp hnd2).1
          (h ▸ heq ▸ List.mem_map.mpr ⟨x, hx, rfl⟩)
      rw [List.filter_cons]
      simp only [hb, Bool.false_eq_true, if_false]
      rw [List.filter_eq_self.mpr hnotin, List.map_cons, List.sum_cons]
      omega
    · have hp : (a.listenerId == lid) = false := by simp [h]
      have hb : (a.listenerId != lid) = true := by simp [h]
      have hf2 : rest.find? (fun s0 => s0.listenerId == lid) = some s := by
        simp [List.find?_cons, hp] at hf
        exact hf
      rw [List.filter_cons]
      simp only [hb, if_true, List.map_cons, List.sum_cons]
      have := ih s (List.nodup_cons.mp hnd2).2 hf2
      omega

/-! ### Characterization of a write-wrapper invocation under well-formedness -/

lemma invokeWrite_world (w : World T R) (m : T → α → T × β) (args : α)
    (hwf : WF w) :
    (invokeWrite w m args).1 =
      { w with value := (m w.value args).1,
               subs := refreshAll (m w.value args).1 w.nextTag w.subs,
               nextTag := w.nextTag + w.subs.length } := by
  show emitChange { w with value := (m w.value args).1 } = _
  rw [emitChange_eq { w with value := (m w.value args).1 } hwf]

lemma invokeWrite_subs_length (w : World T R) (m : T → α → T × β) (args : α)
    (hwf : WF w) :
    (invokeWrite w m args).1.subs.length = w.subs.length := by
  rw [invokeWrite_world w m args hwf]
  exact refreshAll_length _ _ _

lemma invokeWrite_subs_get (w : World T R) (m : T → α → T × β) (args : α)
    (hwf : WF w) (i : Nat) (h : i < w.subs.length)
    (h2 : i < (invokeWrite w m args).1.subs.length) :
    (invokeWrite w m args).1.subs.get ⟨i, h2⟩ =
      { w.subs.get ⟨i, h⟩ with
        tag := w.nextTag + i,
        cached := (w.subs.get ⟨i, h⟩).selector (m w.value args).1,
        renders := (w.subs.get ⟨i, h⟩).renders + 1,
        selCalls := (w.subs.get ⟨i, h⟩).selCalls + 1 } := by
  have hw := invokeWrite_world w m args hwf
  have htag : (w.subs.get ⟨i, h⟩).tag < w.nextTag :=
    hwf.2.2.1 _ (List.get_mem w.subs _ _)
  have h3 : i < (refreshAll (m w.value args).1 w.nextTag w.subs).length := by
    rw [refreshAll_length]; exact h
  have hget := refreshAll_get_forced (m w.value args).1 w.subs w.nextTag i h h3
    htag
  have hsubs_eq : (invokeWrite w m args).1.subs =
      refreshAll (m w.value args).1 w.nextTag w.subs := by rw [hw]
  rw [List.get_of_eq hsubs_eq ⟨i, h2⟩]
  exact hget

lemma runListener_at_index (w : World T R) (hwf : WF w) (i : Nat)
    (h : i < w.subs.length) :
    runListener w.value ((w.subs.get ⟨i, h⟩).listenerId)
        (w.subs, w.nextTag) =
      (w.subs.set i
        { w.subs.get ⟨i, h⟩ with
          tag := w.nextTag,
          cached := (w.subs.get ⟨i, h⟩).selector w.value,
          renders := (w.subs.get ⟨i, h⟩).renders + 1,
          selCalls := (w.subs.get ⟨i, h⟩).selCalls + 1 },
        w.nextTag + 1) := by
  have hnf := notifyFirst_at_index w.value w.nextTag w.subs hwf.2.1 i h
  have htag : (w.subs.get ⟨i, h⟩).tag < w.nextTag :=
    hwf.2.2.1 _ (List.get_mem w.subs _ _)
  unfold runListener
  simp only []
  rw [hnf, setStateStep_of_lt w.value w.nextTag _ htag]

/-! ### The claims -/


lemma refreshAll_map_of_forced {γ : Type} (v : T) (g : ReadSub T R → γ)
    (g2 : ReadSub T R → γ)
    (hgg : ∀ (s : ReadSub T R) (n : Nat), s.tag < n →
      g (setStateStep v n s) = g2 s) :
    ∀ (subs : List (ReadSub T R)) (n : Nat), (∀ s ∈ subs, s.tag < n) →
      (refreshAll v n subs).map g = subs.map g2 := by
  intro subs
  induction subs with
  | nil => intro n _; rfl
  | cons s rest ih =>
    intro n htags
    rw [refreshAll, List.map_cons, List.map_cons,
      hgg s n (htags s (List.mem_cons_self s rest)),
      ih (n + 1) (fun x hx => Nat.lt_trans
        (htags x (List.mem_cons_of_mem s hx)) (Nat.lt_succ_self n))]

lemma invokeWrite_map_cached (w : World T R) (m : T → α → T × β) (args : α)
    (hwf : WF w) :
    (invokeWrite w m args).1.subs.map (·.cached) =
      w.subs.map (fun s => s.selector (m w.value args).1) := by
  rw [invokeWrite_world w m args hwf]
  exact refreshAll_map_of_forced _ _ _
    (fun s n hlt => by rw [setStateStep_of_lt _ _ _ hlt]) w.subs w.nextTag
    hwf.2.2.1

lemma invokeWrite_map_renders (w : World T R) (m : T → α → T × β) (args : α)
    (hwf : WF w) :
    (invokeWrite w m args).1.subs.map (·.renders) =
      w.subs.map (fun s => s.renders + 1) := by
  rw [invokeWrite_world w m args hwf]
  exact refreshAll_map_of_forced _ _ _
    (fun s n hlt => by rw [setStateStep_of_lt _ _ _ hlt]) w.subs w.nextTag
    hwf.2.2.1

lemma invokeWrite_map_selCalls (w : World T R) (m : T → α → T × β) (args : α)
    (hwf : WF w) :
    (invokeWrite w m args).1.subs.map (·.selCalls) =
      w.subs.map (fun s => s.selCalls + 1) := by
  rw [invokeWrite_world w m args hwf]
  exact refreshAll_map_of_forced _ _ _
    (fun s n hlt => by rw [setStateStep_of_lt _ _ _ hlt]) w.subs w.nextTag
    hwf.2.2.1

lemma invokeWrite_map_selector (w : World T R) (m : T → α → T × β) (args : α)
    (hwf : WF w) :
    (invokeWrite w m args).1.subs.map (·.selector) =
      w.subs.map (·.selector) := by
  rw [invokeWrite_world w m args hwf]
  exact refreshAll_map_of_forced _ _ _
    (fun s n hlt => by rw [setStateStep_of_lt _ _ _ hlt]) w.subs w.nextTag
    hwf.2.2.1

lemma invokeWrite_map_listenerId (w : World T R) (m : T → α → T × β)
    (args : α) (hwf : WF w) :
    (invokeWrite w m args).1.subs.map (·.listenerId) =
      w.subs.map (·.listenerId) := by
  rw [invokeWrite_world w m args hwf]
  exact refreshAll_map_of_forced _ _ _
    (fun s n hlt => by rw [setStateStep_of_lt _ _ _ hlt]) w.subs w.nextTag
    hwf.2.2.1

/-- Concrete fixture: a `Nat` store holding `1` with one mounted
subscription reading the value itself. -/
def witStore : World Nat Nat := mountRead (initWorld Nat 1) 0 (fun v => v)

/-- Concrete fixture: two subscriptions over a store holding `3`. -/
def witStore2 : World Nat Nat :=
  mountRead (mountRead (initWorld Nat 3) 0 (fun v => v)) 1 (fun v => v + 1)

/-- Concrete fixture: the method `inc() { this.x++ }`, returning nothing. -/
def incMethod : Nat → Unit → Nat × Unit := fun v _ => (v + 1, ())

/-- C1: invoking a `useWrite` wrapper mutates the domain value first and then
performs exactly one synchronous notification pass before it returns: every
currently mounted read subscription is notified exactly once (each render
count goes up by exactly one, one fresh container is allocated per
subscription), and each subscription's cached value becomes its selector
applied to the post-mutation value — so every active subscription reflects
the mutation when the wrapper returns. -/
theorem write_notifies_all_subs_synchronously {T R α β : Type}
    (w : World T R) (m : T → α → T × β) (args : α) (hwf : WF w) :
    (invokeWrite w m args).1.value = (m w.value args).1 ∧
    (invokeWrite w m args).1.subs.map (·.cached) =
      w.subs.map (fun s => s.selector (m w.value args).1) ∧
    (invokeWrite w m args).1.subs.map (·.renders) =
      w.subs.map (fun s => s.renders + 1) ∧
    (invokeWrite w m args).1.subs.map (·.selector) =
      w.subs.map (·.selector) ∧
    (invokeWrite w m args).1.subs.map (·.listenerId) =
      w.subs.map (·.listenerId) ∧
    (invokeWrite w m args).1.nextTag = w.nextTag + w.subs.length :=
  ⟨by rw [invokeWrite_world w m args hwf],
   invokeWrite_map_cached w m args hwf,
   invokeWrite_map_renders w m args hwf,
   invokeWrite_map_selector w m args hwf,
   invokeWrite_map_listenerId w m args hwf,
   by rw [invokeWrite_world w m args hwf]⟩

/-- C1 witness: the counter scenario — store holds 1, one subscription reads
it, the increment method is invoked through the wrapper. -/
theorem write_notifies_all_subs_synchronously_witness :
    WF witStore ∧
    ((invokeWrite witStore incMethod ()).1.value =
        (incMethod witStore.value ()).1 ∧
      (invokeWrite witStore incMethod ()).1.subs.map (·.cached) =
        witStore.subs.map
          (fun s => s.selector (incMethod witStore.value ()).1) ∧
      (invokeWrite witStore incMethod ()).1.subs.map (·.renders) =
        witStore.subs.map (fun s => s.renders + 1) ∧
      (invokeWrite witStore incMethod ()).1.subs.map (·.selector) =
        witStore.subs.map (·.selector) ∧
      (invokeWrite witStore incMethod ()).1.subs.map (·.listenerId) =
        witStore.subs.map (·.listenerId) ∧
      (invokeWrite witStore incMethod ()).1.nextTag =
        witStore.nextTag + witStore.subs.length) :=
  ⟨WF_mountRead _ (WF_initWorld Nat 1) 0 _,
   write_notifies_all_subs_synchronously witStore incMethod ()
     (WF_mountRead _ (WF_initWorld Nat 1) 0 _)⟩

/-- C2: the wrapper returned by `useWrite` calls the selected method with the
Store's shared domain value as receiver, then unconditionally notifies every
currently registered listener, then returns exactly the method's return
value; the `useWrite` hook call itself merely selects the method from the
domain value. -/
theorem useWrite_wrapper_contract {T R M α β : Type} (w : World T R)
    (sel : T → M) (m : T → α → T × β) (args : α) (hwf : WF w) :
    useWriteHook w sel = (w, sel w.value) ∧
    (invokeWrite w m args).2 = (m w.value args).2 ∧
    (invokeWrite w m args).1.value = (m w.value args).1 ∧
    (invokeWrite w m args).1.subs.map (·.renders) =
      w.subs.map (fun s => s.renders + 1) :=
  ⟨rfl, rfl, by rw [invokeWrite_world w m args hwf],
   invokeWrite_map_renders w m args hwf⟩

/-- C2 witness: a method taking an argument and returning the old value,
invoked through the wrapper on a store with two subscriptions. -/
theorem useWrite_wrapper_contract_witness :
    WF witStore2 ∧
    (useWriteHook witStore2 (fun v => v + 7) =
        (witStore2, witStore2.value + 7) ∧
      (invokeWrite witStore2 (fun v x => (x, v)) (9 : Nat)).2 =
        ((fun (v x : Nat) => (x, v)) witStore2.value 9).2 ∧
      (invokeWrite witStore2 (fun v x => (x, v)) (9 : Nat)).1.value =
        ((fun (v x : Nat) => (x, v)) witStore2.value 9).1 ∧
      (invokeWrite witStore2 (fun v x => (x, v)) (9 : Nat)).1.subs.map
          (·.renders) =
        witStore2.subs.map (fun s => s.renders + 1)) :=
  ⟨WF_mountRead _ (WF_mountRead _ (WF_initWorld Nat 3) 0 _) 1 _,
   useWrite_wrapper_contract witStore2 (fun v => v + 7)
     (fun v x => (x, v)) 9
     (WF_mountRead _ (WF_mountRead _ (WF_initWorld Nat 3) 0 _) 1 _)⟩

/-- C3: constructing a Store with initial value `v` and reading through any
selector before any write returns the selector applied to `v`. -/
theorem useRead_initial_value (T R : Type) (v : T) (selKey : Nat)
    (sel : T → R) :
    readValue (mountRead (initWorld R v) selKey sel)
        (initWorld R v).nextId = some (sel v) ∧
    (initWorld R v).value = v :=
  ⟨rfl, rfl⟩

/-- C4: the registry holds exactly one listener per mounted subscription:
mounting appends exactly one entry, unmounting a subscription removes
exactly that subscription's entry (all other entries survive), and once
every subscription has unmounted the registry is empty — no detached
listener lingers. -/
theorem listener_registry_discipline {T R : Type} (w : World T R)
    (hwf : WF w) (selKey : Nat) (sel : T → R) (lid : Nat)
    (hmem : lid ∈ w.listeners) :
    (mountRead w selKey sel).listeners.length = w.listeners.length + 1 ∧
    w.listeners.length = w.subs.length ∧
    (unmount w lid).listeners.length + 1 = w.listeners.length ∧
    (∀ x ∈ w.listeners, x ≠ lid → x ∈ (unmount w lid).listeners) ∧
    lid ∉ (unmount w lid).listeners ∧
    (unmountAll w).listeners = [] ∧
    (unmountAll w).subs = [] := by
  have hnd : w.listeners.Nodup := by rw [hwf.1]; exact hwf.2.1
  refine ⟨?_, ?_, ?_, ?_, ?_, ?_, ?_⟩
  · show (addListener w.listeners w.nextId).length = _
    simp [addListener]
  · rw [hwf.1]; simp
  · exact removeListener_length_of_nodup w.listeners lid hnd hmem
  · intro x hx hne
    exact mem_removeListener_of_ne w.listeners lid x hx hne
  · exact removeListener_not_mem_self w.listeners lid
  · exact (foldl_unmount_spec (w.subs.map (·.listenerId)) w hwf rfl).2
  · exact (foldl_unmount_spec (w.subs.map (·.listenerId)) w hwf rfl).1

/-- C4 witness: two subscriptions, unmounting listener 0. -/
theorem listener_registry_discipline_witness :
    WF witStore2 ∧ 0 ∈ witStore2.listeners ∧
    ((mountRead witStore2 2 (fun v => v)).listeners.length =
        witStore2.listeners.length + 1 ∧
      witStore2.listeners.length = witStore2.subs.length ∧
      (unmount witStore2 0).listeners.length + 1 =
        witStore2.listeners.length ∧
      (∀ x ∈ witStore2.listeners, x ≠ 0 →
        x ∈ (unmount witStore2 0).listeners) ∧
      0 ∉ (unmount witStore2 0).listeners ∧
      (unmountAll witStore2).listeners = [] ∧
      (unmountAll witStore2).subs = []) :=
  ⟨WF_mountRead _ (WF_mountRead _ (WF_initWorld Nat 3) 0 _) 1 _,
   by decide,
   listener_registry_discipline witStore2
     (WF_mountRead _ (WF_mountRead _ (WF_initWorld Nat 3) 0 _) 1 _)
     2 (fun v => v) 0 (by decide)⟩

/-- C5: a notification delivered to a subscription always re-evaluates the
selector against the current domain value and replaces the cached container
with a freshly allocated one (the new container's identity differs from the
old), incrementing the subscriber's render count by one — there is no
value-equality deduplication, so this holds even when the recomputed value
equals the cached one. -/
theorem notification_always_rerenders {T R : Type} (w : World T R)
    (hwf : WF w) (i : Nat) (h : i < w.subs.length) :
    runListener w.value ((w.subs.get ⟨i, h⟩).listenerId)
        (w.subs, w.nextTag) =
      (w.subs.set i
        { w.subs.get ⟨i, h⟩ with
          tag := w.nextTag,
          cached := (w.subs.get ⟨i, h⟩).selector w.value,
          renders := (w.subs.get ⟨i, h⟩).renders + 1,
          selCalls := (w.subs.get ⟨i, h⟩).selCalls + 1 },
        w.nextTag + 1) ∧
    w.nextTag ≠ (w.subs.get ⟨i, h⟩).tag := by
  refine ⟨runListener_at_index w hwf i h, ?_⟩
  have := hwf.2.2.1 _ (List.get_mem w.subs i h)
  omega

/-- C5 witness: the single-subscription store; its selector recomputes to the
same value it already caches, yet the notification still re-renders it. -/
theorem notification_always_rerenders_witness :
    WF witStore ∧ 0 < witStore.subs.length ∧
    (runListener witStore.value
        ((witStore.subs.get ⟨0, by decide⟩).listenerId)
        (witStore.subs, witStore.nextTag) =
      (witStore.subs.set 0
        { witStore.subs.get ⟨0, by decide⟩ with
          tag := witStore.nextTag,
          cached := (witStore.subs.get ⟨0, by decide⟩).selector
            witStore.value,
          renders := (witStore.subs.get ⟨0, by decide⟩).renders + 1,
          selCalls := (witStore.subs.get ⟨0, by decide⟩).selCalls + 1 },
        witStore.nextTag + 1) ∧
      witStore.nextTag ≠ (witStore.subs.get ⟨0, by decide⟩).tag) :=
  ⟨WF_mountRead _ (WF_initWorld Nat 1) 0 _, by decide,
   notification_always_rerenders witStore
     (WF_mountRead _ (WF_initWorld Nat 1) 0 _) 0 (by decide)⟩

/-- C7: a component that never calls `useRead` — in particular one that only
obtains and invokes write wrappers — is never re-rendered by Store changes:
the `useWrite` hook call leaves the world untouched (registers no listener),
and a write-wrapper invocation modifies neither the registry nor any
non-subscribing component's render count. -/
theorem write_only_component_never_rerenders {T R M α β : Type}
    (w : World T R) (sel : T → M) (m : T → α → T × β) (args : α) :
    (useWriteHook w sel).1 = w ∧
    (invokeWrite w m args).1.others = w.others ∧
    (invokeWrite w m args).1.listeners = w.listeners :=
  ⟨rfl, rfl, rfl⟩

/-- C8: an exception thrown by a selector during `useRead`, or by the
selected method during a write-wrapper invocation, propagates synchronously
and unchanged to the caller — the Store installs no handler and performs no
retry or recovery. -/
theorem exceptions_propagate_to_caller {T R E α β : Type} (w : World T R)
    (selKey : Nat) (sel : T → Except E R) (m : T → α → Except E (T × β))
    (args : α) (e e2 : E) (hsel : sel w.value = .error e)
    (hm : m w.value args = .error e2) :
    mountReadE w selKey sel = .error e ∧
    (invokeWriteE w m args).2 = .error e2 := by
  constructor
  · unfold mountReadE
    rw [hsel]
  · unfold invokeWriteE
    rw [hm]

/-- C8 witness: a throwing selector and a throwing method over a `Nat`
store. -/
theorem exceptions_propagate_to_caller_witness :
    (fun _ : Nat => (Except.error "boom" : Except String Nat))
        (initWorld Nat (0 : Nat)).value = Except.error "boom" ∧
    (fun (_ : Nat) (_ : Nat) =>
        (Except.error "bam" : Except String (Nat × Nat)))
        (initWorld Nat (0 : Nat)).value 7 = Except.error "bam" ∧
    (mountReadE (initWorld Nat (0 : Nat)) 0
        (fun _ => (Except.error "boom" : Except String Nat)) =
      Except.error "boom" ∧
      (invokeWriteE (initWorld Nat (0 : Nat))
          (fun _ _ => (Except.error "bam" : Except String (Nat × Nat)))
          (7 : Nat)).2 = Except.error "bam") :=
  ⟨rfl, rfl,
   exceptions_propagate_to_caller (initWorld Nat 0) 0
     (fun _ => Except.error "boom")
     (fun _ _ => Except.error "bam") 7 "boom" "bam" rfl rfl⟩

/-- C9: if the method selected through `useWrite` throws when the wrapper is
invoked, the exception escapes before `emitChange` is reached: no listener
runs, nothing is notified, and the world — the listener registry included —
is returned exactly as it was. -/
theorem throwing_method_no_notification {T R E α β : Type} (w : World T R)
    (m : T → α → Except E (T × β)) (args : α) (e : E)
    (hm : m w.value args = .error e) :
    invokeWriteE w m args = (w, .error e) := by
  unfold invokeWriteE
  rw [hm]

/-- C9 witness: a throwing method invoked on a store that has one active
subscription; the subscription state and registry are untouched. -/
theorem throwing_method_no_notification_witness :
    (fun (_ : Nat) (_ : Unit) =>
        (Except.error "oops" : Except String (Nat × Unit)))
        witStore.value () = Except.error "oops" ∧
    invokeWriteE witStore
        (fun _ _ => (Except.error "oops" : Except String (Nat × Unit))) () =
      (witStore, Except.error "oops") :=
  ⟨rfl,
   throwing_method_no_notification witStore
     (fun _ _ => Except.error "oops") () "oops" rfl⟩

/-- C10: `addListener` appends the listener and returns a cleanup that
removes every registry entry identical (by reference) to it while keeping
the remaining entries in order, so for a listener not already present the
add-then-cleanup round trip restores the registry exactly. -/
theorem addListener_cleanup_roundtrip (ls ms : List Nat) (l : Nat)
    (h : l ∉ ls) :
    removeListener (addListener ls l) l = ls ∧
    l ∉ removeListener ms l ∧
    (removeListener ms l).Sublist ms := by
  refine ⟨?_, removeListener_not_mem_self ms l, List.filter_sublist ms⟩
  unfold addListener removeListener
  rw [List.filter_append,
    show ls.filter (fun x => x != l) = ls from
      removeListener_of_not_mem ls l h]
  simp

/-- C10 witness: a registry `[2, 3]` gaining and losing listener `5`, and a
registry with duplicate occurrences of `5` all removed in order. -/
theorem addListener_cleanup_roundtrip_witness :
    (5 : Nat) ∉ [2, 3] ∧
    (removeListener (addListener [2, 3] 5) 5 = [2, 3] ∧
      (5 : Nat) ∉ removeListener [7, 5, 9, 5] 5 ∧
      (removeListener [7, 5, 9, 5] 5).Sublist [7, 5, 9, 5]) :=
  ⟨by decide, addListener_cleanup_roundtrip [2, 3] [7, 5, 9, 5] 5 (by decide)⟩

/-- C6 counterexample: after one subscription activation (one selector call)
followed by one getter-identity change and no notification, the selector has
run once in total, not twice — a getter-identity change re-subscribes the
listener but does not itself evaluate the selector (the new getter is only
invoked by a later notification). -/
theorem selector_not_called_on_identity_change_cex :
    ((rerenderRead (mountRead (initWorld Nat (5 : Nat)) 0 (fun v => v)) 0 1
        (fun v => v + 1)).subs.map (·.selCalls)) = [1] ∧
    ((rerenderRead (mountRead (initWorld Nat (5 : Nat)) 0 (fun v => v)) 0 1
        (fun v => v + 1)).subs.map (·.selCalls)) ≠ [2] := by
  constructor
  · rfl
  · decide

/-- C6 (amended): the selector passed to `useRead` is evaluated exactly once
per subscription activation and exactly once per received notification; a
re-render of the owning component — whether with unchanged selector identity
(an unrelated re-render, e.g. a local state change) or with a changed
identity (which only re-subscribes the listener) — performs no selector
evaluation. -/
theorem selector_invocation_discipline {T R : Type} (w : World T R)
    (hwf : WF w) (selKey : Nat) (sel : T → R) (i : Nat)
    (h : i < w.subs.length) :
    (mountRead w selKey sel).subs.map (·.selCalls) =
      w.subs.map (·.selCalls) ++ [1] ∧
    (∀ (lid2 selKey2 : Nat) (sel2 : T → R),
      ((rerenderRead w lid2 selKey2 sel2).subs.map (·.selCalls)).sum =
        (w.subs.map (·.selCalls)).sum) ∧
    (runListener w.value ((w.subs.get ⟨i, h⟩).listenerId)
        (w.subs, w.nextTag)).1.map (·.selCalls) =
      (w.subs.map (·.selCalls)).set i
        ((w.subs.get ⟨i, h⟩).selCalls + 1) := by
  refine ⟨?_, ?_, ?_⟩
  · simp [mountRead, mkSub]
  · intro lid2 selKey2 sel2
    unfold rerenderRead
    split
    · rfl
    · rename_i s hfind
      split
      · rename_i hkey
        show ((updateFirst lid2
          (fun s0 => { s0 with renders := s0.renders + 1 })
          w.subs).map (·.selCalls)).sum = _
        rw [map_updateFirst_eq lid2
          (fun s0 => { s0 with renders := s0.renders + 1 })
          (·.selCalls) (fun _ => rfl) w.subs]
      · rename_i hkey
        show ((w.subs.filter (fun s0 => s0.listenerId != lid2) ++ _).map
          (·.selCalls)).sum = _
        rw [List.map_append, List.sum_append]
        have hfs2 : (List.map (fun s0 => s0.selCalls)
              (w.subs.filter (fun s0 => s0.listenerId != lid2))).sum +
            s.selCalls = (List.map (fun s0 => s0.selCalls) w.subs).sum :=
          find_filter_sum lid2 (fun s0 => s0.selCalls) w.subs s
            hwf.2.1 hfind
        show _ + (s.selCalls + 0) = _
        omega
  · rw [runListener_at_index w hwf i h]
    simp [List.map_set]

/-- C6 amended-claim witness: two subscriptions; mounting a third evaluates
its selector once, arbitrary re-renders evaluate nothing, one notification
to subscription 1 evaluates its selector once. -/
theorem selector_invocation_discipline_witness :
    WF witStore2 ∧ 1 < witStore2.subs.length ∧
    ((mountRead witStore2 5 (fun v => v * 2)).subs.map (·.selCalls) =
        witStore2.subs.map (·.selCalls) ++ [1] ∧
      (∀ (lid2 selKey2 : Nat) (sel2 : Nat → Nat),
        ((rerenderRead witStore2 lid2 selKey2 sel2).subs.map
            (·.selCalls)).sum =
          (witStore2.subs.map (·.selCalls)).sum) ∧
      (runListener witStore2.value
          ((witStore2.subs.get ⟨1, by decide⟩).listenerId)
          (witStore2.subs, witStore2.nextTag)).1.map (·.selCalls) =
        (witStore2.subs.map (·.selCalls)).set 1
          ((witStore2.subs.get ⟨1, by decide⟩).selCalls + 1)) :=
  ⟨WF_mountRead _ (WF_mountRead _ (WF_initWorld Nat 3) 0 _) 1 _, by decide,
   selector_invocation_discipline witStore2
     (WF_mountRead _ (WF_mountRead _ (WF_initWorld Nat 3) 0 _) 1 _)
     5 (fun v => v * 2) 1 (by decide)⟩
